import Mathlib

/-!
CoinButlerV2 — verification of the Position & Risk Ledger and the decision logic.

Shallow embedding of the parts of `risk_manager.py` and `trade_bot.py` that the
spec's claims are about.  Conventions of the embedding:

* Python floats are modelled as exact rationals (`ℚ`); the claims under check
  concern comparison logic and arithmetic identities, not rounding.
* Python dicts keyed by strings are modelled as insertion-ordered association
  lists with unique-key update (`dictSet` / `dictGet?`), matching dict
  assignment and membership.
* The ambient clock (`datetime.now()`, `date.today()`) is passed explicitly as
  a `now : Nat` timestamp and a `today : String` date key.
* Fallible file I/O is modelled by explicit store states (`missing`,
  `unreadable`, `ok data`), mirroring the `try/except` branches in the source.
* Exceptions raised by dynamic Python semantics (wrong call arity, missing
  attribute, undefined name) are modelled with `Except PyErr`, and the
  corresponding `except` handlers in the source are modelled by matching on
  the error at the place that catches it.
-/

namespace CoinButler

/-- Exceptions of Python's dynamic semantics that the embedded code can raise. -/
inductive PyErr where
  | typeError
  | attributeError
  | nameError
  deriving DecidableEq, Repr

/-! ## Dict primitives -/

/-- Lookup in a string-keyed dict modelled as an association list
(first binding wins, as keys are unique under `dictSet`). -/
def dictGet? {α : Type} (d : List (String × α)) (k : String) : Option α :=
  (d.find? (fun kv => kv.1 == k)).map (fun kv => kv.2)

/-- Dict assignment `d[k] = v`: replace the binding if the key is present,
otherwise append a new binding (insertion order preserved). -/
def dictSet {α : Type} (d : List (String × α)) (k : String) (v : α) : List (String × α) :=
  if d.any (fun kv => kv.1 == k) then
    d.map (fun kv => if kv.1 == k then (k, v) else kv)
  else
    d ++ [(k, v)]

/-! ## Position (risk_manager.py lines 14-59) -/

/-- `Position` as constructed in `risk_manager.py`; `status` is the literal
string field of the source (`"open"`, `"closed"`).  Timestamps are opaque
`Nat` values. -/
structure Position where
  market : String
  entry_price : ℚ
  quantity : ℚ
  entry_time : Nat
  investment_amount : ℚ
  exit_price : Option ℚ := none
  exit_time : Option Nat := none
  status : String := "open"
  profit_loss : Option ℚ := none
  deriving DecidableEq, Repr

/-- `Position.calculate_current_pnl` (lines 29-32):
`quantity * current_price - investment_amount`. -/
def Position.calculate_current_pnl (p : Position) (current_price : ℚ) : ℚ :=
  p.quantity * current_price - p.investment_amount

/-- `Position.calculate_pnl_rate` (lines 34-37): P&L over investment, in
percent. -/
def Position.calculate_pnl_rate (p : Position) (current_price : ℚ) : ℚ :=
  p.calculate_current_pnl current_price / p.investment_amount * 100

/-- `Position.close_position` (lines 39-45): set exit fields, mark
`status = "closed"`, record and return the realized P&L. -/
def Position.close_position (p : Position) (exit_price : ℚ) (exit_time : Nat) :
    Position × ℚ :=
  let pl := p.calculate_current_pnl exit_price
  ({ p with
      exit_price := some exit_price
      exit_time := some exit_time
      status := "closed"
      profit_loss := some pl }, pl)

/-! ## Persisted stores -/

/-- One row of `trade_history.csv` (written by `RiskManager._record_trade`). -/
structure TradeRecord where
  timestamp : Nat
  market : String
  action : String
  price : ℚ
  quantity : ℚ
  amount : ℚ
  profit_loss : ℚ
  cumulative_pnl : ℚ
  deriving DecidableEq, Repr

/-- The `daily_pnl.json` store: absent, present-but-unparsable (a read raises
and the handler returns/ignores), or parsed date-keyed data. -/
inductive DailyPnlFile where
  | missing
  | unreadable
  | ok (data : List (String × ℚ))
  deriving DecidableEq, Repr

/-- The `positions.json` store, with the same three observable read states. -/
inductive PositionsFile where
  | missing
  | unreadable
  | ok (data : List (String × Position))
  deriving DecidableEq, Repr

/-! ## RiskManager (risk_manager.py lines 61-450) -/

/-- The mutable state of a `RiskManager` instance together with the stores it
owns (`trade_history.csv` contents and `daily_pnl.json` state). -/
structure RiskManager where
  daily_loss_limit : ℚ
  max_positions : Nat
  positions : List (String × Position)
  trade_history : List TradeRecord
  daily_pnl : DailyPnlFile
  deriving DecidableEq, Repr

/-- `RiskManager.get_daily_pnl` (lines 317-331): missing file and unparsable
file both yield `0.0`; otherwise `data.get(today, 0.0)`. -/
def RiskManager.get_daily_pnl (rm : RiskManager) (today : String) : ℚ :=
  match rm.daily_pnl with
  | .missing => 0
  | .unreadable => 0
  | .ok data => (dictGet? data today).getD 0

/-- `RiskManager._update_daily_pnl` (lines 333-348):
`data[today] = data.get(today, 0.0) + profit_loss`.  When the existing file is
unparsable, `json.load` raises and the handler swallows the error, so nothing
is written. -/
def RiskManager.update_daily_pnl (rm : RiskManager) (today : String)
    (profit_loss : ℚ) : RiskManager :=
  match rm.daily_pnl with
  | .unreadable => rm
  | .missing =>
      { rm with daily_pnl := .ok (dictSet [] today profit_loss) }
  | .ok data =>
      { rm with daily_pnl :=
          DailyPnlFile.ok (dictSet data today ((dictGet? data today).getD 0 + profit_loss)) }

/-- `RiskManager._record_trade` (lines 369-390): append a CSV row with
`cumulative_pnl = get_daily_pnl() + profit_loss`. -/
def RiskManager.record_trade (rm : RiskManager) (market action : String)
    (price quantity amount profit_loss : ℚ) (now : Nat) (today : String) :
    RiskManager :=
  { rm with trade_history := rm.trade_history ++
      [{ timestamp := now, market := market, action := action, price := price,
         quantity := quantity, amount := amount, profit_loss := profit_loss,
         cumulative_pnl := rm.get_daily_pnl today + profit_loss }] }

/-- `RiskManager.get_open_positions` (lines 392-395): the live-open index. -/
def RiskManager.get_open_positions (rm : RiskManager) : List (String × Position) :=
  rm.positions.filter (fun kv => kv.2.status == "open")

/-- `RiskManager.can_open_position` (lines 216-219): count of open positions
strictly below `max_positions`. -/
def RiskManager.can_open_position (rm : RiskManager) : Bool :=
  decide (rm.get_open_positions.length < rm.max_positions)

/-- Whether an open position already exists for `market`
(`market in self.positions and self.positions[market].status == "open"`). -/
def RiskManager.hasOpenPosition (rm : RiskManager) (market : String) : Bool :=
  match dictGet? rm.positions market with
  | some p => p.status == "open"
  | none => false

/-- `RiskManager.add_position` (lines 221-256): reject (no state change) when
`can_open_position` is false or an open position for the market exists;
otherwise store the new position, record the BUY trade and persist. -/
def RiskManager.add_position (rm : RiskManager) (market : String)
    (entry_price quantity investment_amount : ℚ) (now : Nat) (today : String) :
    Bool × RiskManager :=
  if ¬ rm.can_open_position then (false, rm)
  else if rm.hasOpenPosition market then (false, rm)
  else
    let position : Position :=
      { market := market, entry_price := entry_price, quantity := quantity,
        entry_time := now, investment_amount := investment_amount }
    let rm := { rm with positions := dictSet rm.positions market position }
    let rm := rm.record_trade market "BUY" entry_price quantity
      investment_amount 0 now today
    (true, rm)

/-- `RiskManager.close_position` (lines 258-285): `None` (no state change)
when no open position exists for the market; otherwise close the position,
record the SELL trade, and add the realized P&L to the daily ledger. -/
def RiskManager.close_position (rm : RiskManager) (market : String)
    (exit_price : ℚ) (now : Nat) (today : String) : Option ℚ × RiskManager :=
  match dictGet? rm.positions market with
  | none => (none, rm)
  | some p =>
    if p.status != "open" then (none, rm)
    else
      let closed := p.close_position exit_price now
      let profit_loss := closed.2
      let rm := { rm with positions := dictSet rm.positions market closed.1 }
      let rm := rm.record_trade market "SELL" exit_price closed.1.quantity
        (closed.1.quantity * exit_price) profit_loss now today
      let rm := rm.update_daily_pnl today profit_loss
      (some profit_loss, rm)

/-- `RiskManager.get_position_pnl` (lines 287-296): `(pnl, pnl_rate)` for an
open position, `None` otherwise. -/
def RiskManager.get_position_pnl (rm : RiskManager) (market : String)
    (current_price : ℚ) : Option (ℚ × ℚ) :=
  match dictGet? rm.positions market with
  | none => none
  | some p =>
    if p.status != "open" then none
    else some (p.calculate_current_pnl current_price,
               p.calculate_pnl_rate current_price)

/-- `RiskManager.should_sell` (lines 298-315).  The source formats the reason
as an f-string beginning with `"익절"` (take-profit) or `"손절"` (stop-loss);
the embedding keeps that leading tag.  The take-profit check
`pnl_rate >= profit_rate * 100` runs first, then the stop-loss check
`pnl_rate <= loss_rate * 100`; both are inclusive. -/
def RiskManager.should_sell (rm : RiskManager) (market : String)
    (current_price profit_rate loss_rate : ℚ) : Bool × String :=
  match rm.get_position_pnl market current_price with
  | none => (false, "")
  | some pr =>
    if pr.2 ≥ profit_rate * 100 then (true, "익절")
    else if pr.2 ≤ loss_rate * 100 then (true, "손절")
    else (false, "")

/-- `RiskManager.check_daily_loss_limit` (lines 350-367).  Note the signature:
besides `self` it takes **no** parameter; the limit compared against is
`self.daily_loss_limit`.  The loop over open positions computes no unrealized
component (its body is `pass`), so `unrealized_pnl` stays `0.0`. -/
def RiskManager.check_daily_loss_limit (rm : RiskManager) (today : String) : Bool :=
  let daily_pnl := rm.get_daily_pnl today
  let unrealized_pnl : ℚ := 0
  let total_pnl := daily_pnl + unrealized_pnl
  decide (total_pnl ≤ rm.daily_loss_limit)

/-- The bound method `rm.check_daily_loss_limit` viewed as a Python callable.
Its `def` declares zero parameters besides `self`, so a call that passes any
positional argument raises `TypeError` before the body runs. -/
def RiskManager.check_daily_loss_limit_call (rm : RiskManager) (args : List ℚ)
    (today : String) : Except PyErr Bool :=
  match args with
  | [] => .ok (rm.check_daily_loss_limit today)
  | _ :: _ => .error .typeError

/-- The `Position(...)` constructed from one persisted entry at
risk_manager.py lines 115-121: the five stored fields are passed through with
no validation; the remaining fields take the constructor defaults
(`status = "open"` among them). -/
def fileRestoredPosition (pd : Position) : Position :=
  { market := pd.market, entry_price := pd.entry_price, quantity := pd.quantity,
    entry_time := pd.entry_time, investment_amount := pd.investment_amount }

/-- `RiskManager._restore_positions_from_file` (lines 103-127): a missing file
or a raising `json.load` leaves the index unchanged; otherwise every entry
with `status == "open"` is rebuilt (no validation of its fields) and stored
under its dict key. -/
def RiskManager.restore_positions_from_file (rm : RiskManager)
    (file : PositionsFile) : RiskManager :=
  match file with
  | .missing => rm
  | .unreadable => rm
  | .ok data =>
    { rm with positions := data.foldl (fun ps kv =>
        if kv.2.status == "open" then dictSet ps kv.1 (fileRestoredPosition kv.2)
        else ps) rm.positions }

/-! ## Reconciliation (risk_manager.py lines 129-214) -/

/-- One exchange account balance as returned by `upbit_api.get_accounts()`. -/
structure Account where
  currency : String
  balance : ℚ
  deriving DecidableEq, Repr

/-- `RiskManager._estimate_entry_price_from_history` (lines 191-214): filter
the trade history to the market, sort by timestamp (stable), keep the BUY
rows, and return the price of the most recent one; `None` when there is no
BUY row.  The `current_quantity` parameter of the source is unused beyond the
signature. -/
def estimate_entry_price_from_history (trade_history : List TradeRecord)
    (market : String) : Option ℚ :=
  let market_trades := (trade_history.filter (fun r => r.market == market)).mergeSort
    (fun a b => a.timestamp ≤ b.timestamp)
  let buy_trades := market_trades.filter (fun r => r.action == "BUY")
  (buy_trades.getLast?).map (fun r => r.price)

/-- Lines 139-171 of `restore_positions_from_upbit` for one account: skip the
quote currency, zero balances, unpriced markets and zero prices
(`if not current_price: continue`); estimate the entry price from history,
falling back to the current price when the estimate is `None` or `0.0`
(`if not entry_price`); build the position with
`investment_amount = entry_price * balance` and `entry_time = now`. -/
def restoredPosition (trade_history : List TradeRecord)
    (prices : String → Option ℚ) (now : Nat) (a : Account) :
    Option (String × Position) :=
  if a.currency == "KRW" then none
  else if ¬ (a.balance > 0) then none
  else
    let market := "KRW-" ++ a.currency
    match prices market with
    | none => none
    | some current_price =>
      if current_price == 0 then none
      else
        let entry_price :=
          match estimate_entry_price_from_history trade_history market with
          | none => current_price
          | some e => if e == 0 then current_price else e
        some (market,
          { market := market, entry_price := entry_price, quantity := a.balance,
            entry_time := now, investment_amount := entry_price * a.balance })

/-- The reconciled index built by the loop of `restore_positions_from_upbit`:
a fresh dict populated account by account. -/
def buildRestored (trade_history : List TradeRecord) (accounts : List Account)
    (prices : String → Option ℚ) (now : Nat) : List (String × Position) :=
  accounts.foldl (fun ps a =>
    match restoredPosition trade_history prices now a with
    | none => ps
    | some mp => dictSet ps mp.1 mp.2) []

/-- `RiskManager.restore_positions_from_upbit` (lines 129-189): replace the
entire in-memory index with the reconciled set and persist it. -/
def RiskManager.restore_positions_from_upbit (rm : RiskManager)
    (accounts : List Account) (prices : String → Option ℚ) (now : Nat) :
    RiskManager :=
  { rm with positions := buildRestored rm.trade_history accounts prices now }

/-! ## Spec-side predicates about the ledger -/

/-- Positivity of every open position in an index. -/
def openPositive (ps : List (String × Position)) : Prop :=
  ∀ kv ∈ ps, kv.2.status = "open" →
    0 < kv.2.quantity ∧ 0 < kv.2.investment_amount

instance (ps : List (String × Position)) : Decidable (openPositive ps) := by
  unfold openPositive; infer_instance

/-- The open-position invariant of the spec (§8): every position in the
live-open index has positive quantity and positive investment amount. -/
def openInvariant (rm : RiskManager) : Prop :=
  openPositive rm.positions

instance (rm : RiskManager) : Decidable (openInvariant rm) := by
  unfold openInvariant; infer_instance

/-- The positivity condition on a persisted position store: every entry that
would be restored as open carries positive quantity and investment amount. -/
def fileOpenEntriesPositive : PositionsFile → Prop
  | .ok data => openPositive data
  | _ => True

instance (file : PositionsFile) : Decidable (fileOpenEntriesPositive file) := by
  unfold fileOpenEntriesPositive; cases file <;> infer_instance

/-- The economic content of one index entry: instrument, entry price,
quantity, investment amount and status (the fields of the spec's open-position
index, without the wall-clock entry timestamp). -/
def indexEntry (kv : String × Position) : String × ℚ × ℚ × ℚ × String :=
  (kv.1, kv.2.entry_price, kv.2.quantity, kv.2.investment_amount, kv.2.status)

/-- The open-position index of a ledger state, projected to its economic
fields. -/
def RiskManager.openIndex (rm : RiskManager) : List (String × ℚ × ℚ × ℚ × String) :=
  rm.get_open_positions.map indexEntry

/-! ## Decision engine (trade_bot.py, class AIAnalyzer) -/

/-- A scan candidate (the dicts built at trade_bot.py lines 1206-1213):
instrument, current price, signed price change, volume-anomaly ratio and
traded notional (`trade_amount`, in 10k-KRW units). -/
structure Candidate where
  market : String
  current_price : ℚ
  price_change : ℚ
  volume_ratio : ℚ
  trade_amount : ℚ
  deriving DecidableEq, Repr

/-- A parsed AI recommendation: `recommended_coin` is `none` when the JSON
field is `null`/absent/empty (falsy), `confidence` defaults to 0, and
`risk_level` is the literal string tier (`"LOW"`, `"MEDIUM"`, `"HIGH"`). -/
structure AIResult where
  recommended_coin : Option String
  confidence : ℚ
  risk_level : String
  deriving DecidableEq, Repr

/-- Python `int(q)`: truncation toward zero. -/
def pyInt (q : ℚ) : ℤ :=
  if q ≥ 0 then ⌊q⌋ else -⌊-q⌋

/-- `market.replace("KRW-", "")` as used when returning a recommended coin. -/
def stripKRW (market : String) : String :=
  market.replace "KRW-" ""

/-- The per-candidate weighted score of
`AIAnalyzer._get_fallback_recommendation` (trade_bot.py lines 689-698):
`0.5 * min(trade_amount/1000, 1) + 0.5 * (min(volume_ratio,5)/5 + (1 - |price_change|/20)) / 2`. -/
def candidateScore (data : Candidate) : ℚ :=
  let trade_amount_score := min (data.trade_amount / 1000) 1
  let volume_score := min data.volume_ratio 5 / 5
  let price_score := 1 - |data.price_change| / 20
  trade_amount_score * (1/2) + (volume_score + price_score) / 2 * (1/2)

/-- The best-candidate fold of `_get_fallback_recommendation` (lines 686-702):
start from `best_score = -1`, `best_candidate = None`, keep a candidate only
when its score is strictly greater than the best so far. -/
def fallbackBest (market_data : List Candidate) : Option Candidate × ℚ :=
  market_data.foldl
    (fun acc data =>
      if candidateScore data > acc.2 then (some data, candidateScore data) else acc)
    (none, -1)

/-- `AIAnalyzer._get_fallback_recommendation` (trade_bot.py lines 675-717):
the deterministic rule-based recommendation.  An empty input, or a fold that
never beats the initial score `-1`, yields the none-result with confidence 0
and risk `"HIGH"`; otherwise the best candidate is named with confidence
`max(3, int(best_score * 10))` and risk `"MEDIUM"`. -/
def AIAnalyzer.get_fallback_recommendation (market_data : List Candidate) : AIResult :=
  if market_data.isEmpty then
    { recommended_coin := none, confidence := 0, risk_level := "HIGH" }
  else
    let best := fallbackBest market_data
    match best.1 with
    | some best_candidate =>
        { recommended_coin := some (stripKRW best_candidate.market),
          confidence := ((max 3 (pyInt (best.2 * 10)) : ℤ) : ℚ),
          risk_level := "MEDIUM" }
    | none =>
        { recommended_coin := none, confidence := 0, risk_level := "HIGH" }

/-- `AIAnalyzer.analyze_market_condition` (trade_bot.py lines 60-124), with
the two outward AI calls supplied as inputs: `primary` is the outcome of the
primary `generate_content` call plus JSON extraction (an exception models both
transport errors and `json.JSONDecodeError`), and `fallback_model_result` is
the value returned by `_analyze_with_fallback_model` (which catches its own
failures internally and never raises).  Disabled AI yields the fixed
none-result.  A raising primary call falls back to the rule-based
recommendation over the submitted data.  A parsed primary result whose
confidence is below the threshold triggers the fallback model, whose result
is kept only when its confidence is strictly higher. -/
def AIAnalyzer.analyze_market_condition (enabled : Bool)
    (market_data : List Candidate) (primary : Except PyErr AIResult)
    (fallback_model_result : AIResult) (confidence_threshold : ℚ) : AIResult :=
  if ¬ enabled then
    { recommended_coin := none, confidence := 0, risk_level := "MEDIUM" }
  else
    match primary with
    | .error _ => AIAnalyzer.get_fallback_recommendation market_data
    | .ok result =>
      if result.confidence < confidence_threshold then
        if fallback_model_result.confidence > result.confidence then
          fallback_model_result
        else result
      else result

/-! ## Orchestrator and per-tick selection (trade_bot.py, class CoinButler) -/

/-- The dynamically loaded settings of `CoinButler.get_current_settings`
(trade_bot.py lines 934-948), restricted to the fields the embedded code
reads. -/
structure Settings where
  max_positions : Nat
  profit_rate : ℚ
  loss_rate : ℚ
  ai_confidence_threshold : ℚ
  daily_loss_limit : ℚ
  deriving DecidableEq, Repr

/-- Orchestrator state: the `is_running` / `is_paused` flags of `CoinButler`
plus the risk manager it owns. -/
structure BotState where
  is_running : Bool
  is_paused : Bool
  risk : RiskManager
  deriving DecidableEq, Repr

/-- `CoinButler.stop` (lines 978-981). -/
def BotState.stop (b : BotState) : BotState :=
  { b with is_running := false }

/-- `CoinButler.pause` (lines 983-986). -/
def BotState.pause (b : BotState) : BotState :=
  { b with is_paused := true }

/-- `CoinButler.resume` (lines 988-991). -/
def BotState.resume (b : BotState) : BotState :=
  { b with is_paused := false }

/-- One iteration of the `while self.is_running` body of
`CoinButler._main_loop` (trade_bot.py lines 993-1032).  When paused, the loop
only sleeps.  Otherwise the guardrail is evaluated by the call
`self.risk_manager.check_daily_loss_limit(settings[\x27daily_loss_limit\x27])`
— one positional argument, against a method declaring none — so the call's
outcome is consulted through `check_daily_loss_limit_call`.  A raised
exception escapes the `while` into the `except` clause at line 1029, after
which the `finally` block calls `self.stop()`.  A `True` breach result pauses
the bot and continues; a `False` result runs the rest of the tick (position
management, balance check, scan, sleep), abstracted by `rest`. -/
def mainLoopIteration (rest : BotState → BotState) (settings : Settings)
    (today : String) (b : BotState) : BotState :=
  if ¬ b.is_running then b
  else if b.is_paused then b
  else
    match b.risk.check_daily_loss_limit_call [settings.daily_loss_limit] today with
    | .error _ => b.stop
    | .ok breached => if breached then b.pause else rest b

/-- The submitted candidate subset of `_scan_for_opportunities`
(lines 1238-1249): the traded-notional top 70% (`int(len * 0.7)`, at least
one — embedded exactly as `⌊7n/10⌋`), capped at 5.  These are the candidates
handed to the AI. -/
def aiSubmitted (spike_candidates : List Candidate) : List Candidate :=
  (spike_candidates.take (max 1 ((7 * spike_candidates.length) / 10))).take 5

/-- The selection stage of `CoinButler._scan_for_opportunities`
(trade_bot.py lines 1244-1281), applied to the spike-candidate list **after**
the descending sort by `trade_amount` of lines 1229-1231 (so the head is the
traded-notional-rank-1 candidate).  With AI enabled and more than one
candidate, the AI verdict is computed by `analyze_market_condition` over the
submitted subset; its pick is adopted only when the recommendation names a
coin, its confidence meets the threshold and its risk is not `"HIGH"` — and
the named market is looked up in the **full** `spike_candidates` list.  In
every other case the head candidate is kept.  Returns `none` only for an
empty candidate list (the source returns earlier in that case). -/
def scanPick (spike_candidates : List Candidate) (ai_enabled : Bool)
    (primary : Except PyErr AIResult) (fallback_model_result : AIResult)
    (confidence_threshold : ℚ) : Option Candidate :=
  match spike_candidates with
  | [] => none
  | first :: _ =>
    if ai_enabled ∧ spike_candidates.length > 1 then
      let ai_result := AIAnalyzer.analyze_market_condition true
        (aiSubmitted spike_candidates) primary fallback_model_result
        confidence_threshold
      match ai_result.recommended_coin with
      | none => some first
      | some coin =>
        if ai_result.confidence ≥ confidence_threshold ∧
            ai_result.risk_level ≠ "HIGH" then
          match spike_candidates.find?
              (fun c => c.market == "KRW-" ++ coin) with
          | some c => some c
          | none => some first
        else some first
    else some first

/-! ## Position management and the swap path (trade_bot.py lines 1034-1091) -/

/-- The record appended to `losing_positions` at lines 1065-1074 — included
for the shape of the data; see `losingPositionStep` for why it is never
built. -/
structure LosingRecord where
  market : String
  entry_price : ℚ
  current_price : ℚ
  pnl_rate : ℚ
  pnl : ℚ
  entry_time : Nat
  days_held : Nat
  deriving DecidableEq, Repr

/-- Lines 1059-1076 of `CoinButler._manage_positions` for one open position
whose sell conditions did not fire: when `pnl_rate < -5.0` the code evaluates
`position.get(\x27entry_time\x27, ...)` — but `position` is a
`risk_manager.Position` object (the values of
`RiskManager.get_open_positions`), not a dict, and the `Position` class
defines no `get` method, so Python raises `AttributeError` before any record
is appended (the subscripts `position[\x27entry_price\x27]` on line 1067
would likewise raise `TypeError`).  At `pnl_rate ≥ -5.0` nothing is
collected. -/
def losingPositionStep (_position : Position) (_pnl pnl_rate : ℚ) (_now : Nat) :
    Except PyErr (Option LosingRecord) :=
  if pnl_rate < -5 then .error .attributeError
  else .ok none

/-- The `losing_positions` list produced by one pass of
`CoinButler._manage_positions` (lines 1034-1079) over the live-open index:
per position, a missing or zero price skips it, a firing sell condition takes
the sell branch, and otherwise `losingPositionStep` runs under the per-market
`try` whose `except` at line 1078 swallows any exception and moves on. -/
def managePositionsLosing (rm : RiskManager) (prices : String → Option ℚ)
    (settings : Settings) (now : Nat) : List LosingRecord :=
  rm.get_open_positions.foldl
    (fun losing kv =>
      match prices kv.1 with
      | none => losing
      | some current_price =>
        if current_price == 0 then losing
        else
          let sell := rm.should_sell kv.1 current_price settings.profit_rate
            settings.loss_rate
          if sell.1 then losing
          else
            match rm.get_position_pnl kv.1 current_price with
            | none => losing
            | some pr =>
              match losingPositionStep kv.2 pr.1 pr.2 now with
              | .error _ => losing
              | .ok none => losing
              | .ok (some r) => losing ++ [r])
    []

/-! ## Auxiliary definitions for the theorems -/

/-- Map a function over the values of an association list. -/
def mapValues {α β : Type} (f : α → β) (d : List (String × α)) : List (String × β) :=
  d.map (fun kv => (kv.1, f kv.2))

/-- Erase the wall-clock entry timestamp of a position (used to compare
reconciliation runs started at different times). -/
def stripTime (p : Position) : Position :=
  { p with entry_time := 0 }

/-- The response kept after the confidence-gated fallback-model chain of the
spec (§4.5 step 4), stated from the spec's words: when the primary response's
confidence is below the threshold the secondary model is queried and the
response with the higher confidence is kept (the primary wins ties). -/
def keptResponse (r fallback : AIResult) (confidence_threshold : ℚ) : AIResult :=
  if r.confidence < confidence_threshold then
    (if fallback.confidence > r.confidence then fallback else r)
  else r

/-! ## Concrete fixtures for witnesses and counterexamples -/

/-- A fresh ledger: no positions, no history, no daily-P&L file. -/
def emptyLedger : RiskManager :=
  { daily_loss_limit := -50000, max_positions := 3, positions := [],
    trade_history := [], daily_pnl := .missing }

/-- An open position: 1 unit bought at 100000 for 100000. -/
def samplePosition : Position :=
  { market := "KRW-A", entry_price := 100000, quantity := 1, entry_time := 0,
    investment_amount := 100000 }

/-- A ledger holding the single open position `samplePosition`. -/
def sampleLedger : RiskManager :=
  { emptyLedger with positions := [("KRW-A", samplePosition)] }

/-- `sampleLedger` with a present-but-unparsable daily-P&L file. -/
def corruptLedger : RiskManager :=
  { sampleLedger with daily_pnl := .unreadable }

/-- A second open position, for multi-position states. -/
def samplePositionB : Position :=
  { market := "KRW-B", entry_price := 100, quantity := 1, entry_time := 0,
    investment_amount := 100 }

/-- A ledger whose open-position count (2) exceeds its cap (1) — reachable by
restoring a persisted index larger than the configured cap. -/
def overfullLedger : RiskManager :=
  { daily_loss_limit := -50000, max_positions := 1,
    positions := [("KRW-A", samplePosition), ("KRW-B", samplePositionB)],
    trade_history := [], daily_pnl := .missing }

/-- A candidate with the given market and traded notional and mild
volume/price figures. -/
def mkCandidate (market : String) (trade_amount : ℚ) : Candidate :=
  { market := market, current_price := 1, price_change := 1,
    volume_ratio := 2, trade_amount := trade_amount }

/-- Six candidates already sorted descending by traded notional. -/
def sixCandidates : List Candidate :=
  [mkCandidate "KRW-A" 600, mkCandidate "KRW-B" 500, mkCandidate "KRW-C" 400,
   mkCandidate "KRW-D" 300, mkCandidate "KRW-E" 200, mkCandidate "KRW-F" 100]

/-- An AI response naming the rank-6 candidate with high confidence. -/
def aiPickF : AIResult :=
  { recommended_coin := some "F", confidence := 9, risk_level := "MEDIUM" }

/-- A neutral low-confidence fallback-model response. -/
def neutralFallback : AIResult :=
  { recommended_coin := none, confidence := 0, risk_level := "MEDIUM" }

/-- A primary AI response below the threshold 7, naming a submitted
candidate. -/
def primaryConf5 : AIResult :=
  { recommended_coin := some "B", confidence := 5, risk_level := "MEDIUM" }

/-- A fallback-model response above the threshold 7, naming a submitted
candidate. -/
def fallbackConf8 : AIResult :=
  { recommended_coin := some "C", confidence := 8, risk_level := "MEDIUM" }

/-- A candidate with an extreme price change and no traded notional: its
weighted score is -5/4 ≤ -1. -/
def extremeCandidate : Candidate :=
  { market := "KRW-AAA", current_price := 1, price_change := 120,
    volume_ratio := 0, trade_amount := 0 }

/-- Default settings of `get_current_settings` (trade_bot.py lines 934-948),
restricted to the embedded fields. -/
def defaultSettings : Settings :=
  { max_positions := 3, profit_rate := 3/100, loss_rate := -2/100,
    ai_confidence_threshold := 7, daily_loss_limit := -50000 }

/-! ## Helper lemmas -/

theorem foldl_step_id {α β : Type} (f : β → α → β) (h : ∀ b a, f b a = b) :
    ∀ (l : List α) (b : β), l.foldl f b = b := by
  intro l
  induction l with
  | nil => intro b; rfl
  | cons a l ih => intro b; rw [List.foldl_cons, h b a]; exact ih b

theorem mem_dictSet {α : Type} {d : List (String × α)} {k : String} {v : α} :
    ∀ kv ∈ dictSet d k v, kv.2 = v ∨ kv ∈ d := by
  intro kv hkv
  unfold dictSet at hkv
  split at hkv
  · rcases List.mem_map.mp hkv with ⟨kv', hkv', heq⟩
    by_cases hk : kv'.1 == k
    · left; simp [hk] at heq; rw [← heq]
    · right; simp [hk] at heq; rw [← heq]; exact hkv'
  · rcases List.mem_append.mp hkv with h | h
    · right; exact h
    · left; simp at h; rw [h]

theorem find?_dictSet_replace {α : Type} {d : List (String × α)} (k : String) (v : α)
    (hany : d.any (fun kv => kv.1 == k) = true) :
    (d.map (fun kv => if kv.1 == k then (k, v) else kv)).find?
      (fun kv => kv.1 == k) = some (k, v) := by
  induction d with
  | nil => simp at hany
  | cons kv d ih =>
    by_cases hk : (kv.1 == k) = true
    · simp only [List.map_cons, if_pos hk]
      exact List.find?_cons_of_pos _ (by simp)
    · have hany' : d.any (fun kv => kv.1 == k) = true := by
        simp only [List.any_cons, hk, Bool.false_or] at hany
        exact hany
      simp only [List.map_cons, if_neg hk]
      rw [List.find?_cons_of_neg _ (by simpa using hk)]
      exact ih hany'

theorem dictGet?_dictSet_self {α : Type} (d : List (String × α)) (k : String) (v : α) :
    dictGet? (dictSet d k v) k = some v := by
  unfold dictGet? dictSet
  split
  · rw [find?_dictSet_replace k v (by assumption)]
    rfl
  · rename_i hany
    have hnone : d.find? (fun kv => kv.1 == k) = none := by
      rw [List.find?_eq_none]
      intro kv hkv hpkv
      exact hany (List.any_eq_true.mpr ⟨kv, hkv, hpkv⟩)
    rw [List.find?_append, hnone]
    rw [List.find?_cons_of_pos _ (by simp)]
    rfl

theorem openPositive_dictSet {ps : List (String × Position)} {k : String}
    {p : Position} (hps : openPositive ps)
    (hp : p.status = "open" → 0 < p.quantity ∧ 0 < p.investment_amount) :
    openPositive (dictSet ps k p) := by
  intro kv hkv hst
  rcases mem_dictSet kv hkv with h | h
  · rw [h] at hst ⊢
    exact hp hst
  · exact hps kv h hst

theorem get_daily_pnl_update (rm : RiskManager) (today : String) (pl : ℚ)
    (h : rm.daily_pnl ≠ .unreadable) :
    (rm.update_daily_pnl today pl).get_daily_pnl today = rm.get_daily_pnl today + pl := by
  unfold RiskManager.update_daily_pnl RiskManager.get_daily_pnl
  cases hf : rm.daily_pnl with
  | missing => simp [dictGet?_dictSet_self]
  | unreadable => exact absurd hf h
  | ok data => simp [dictGet?_dictSet_self]

/-! ## C1 — daily-limit breach and the orchestrator's state -/

/-- C1: the claim says a daily-loss breach moves the Orchestrator from Running
to Paused on that tick, and that evaluating the guardrail on a tick never
moves it to Stopped.  The code does the opposite: `_main_loop` calls
`check_daily_loss_limit(settings[\x27daily_loss_limit\x27])` with one
positional argument, but `RiskManager.check_daily_loss_limit` (risk_manager.py
line 350) declares no parameter besides `self`, so the call raises
`TypeError` on every tick that reaches the guardrail; the exception leaves
the `while` loop, and the `finally` block calls `stop()`.  This theorem
evaluates the embedded tick on an arbitrary Running, un-Paused state: the
result is always Stopped (`is_running = false`) and never Paused, for every
continuation of the tick, every settings value and every ledger state. -/
theorem guardrail_tick_stops (rest : BotState → BotState) (settings : Settings)
    (today : String) (rm : RiskManager) :
    mainLoopIteration rest settings today
        { is_running := true, is_paused := false, risk := rm } =
      { is_running := false, is_paused := false, risk := rm } := by
  rfl

/-- C2: the claim says every open position held at least one day at a loss of
at least 5% is collected for swap analysis.  In the code, the collection
branch starts with `position.get(\x27entry_time\x27, ...)` on a `Position`
object that has no `get` method; the raised `AttributeError` is swallowed by
the per-market handler, so the losing-position list built by
`_manage_positions` is empty for every ledger state, every price map and
every settings value — the swap path is dead code. -/
theorem losing_positions_never_collected (rm : RiskManager)
    (prices : String → Option ℚ) (settings : Settings) (now : Nat) :
    managePositionsLosing rm prices settings now = [] := by
  unfold managePositionsLosing
  apply foldl_step_id
  intro b kv
  rcases hp : prices kv.1 with _ | price
  · simp only [hp]
  · simp only [hp]
    by_cases hz : (price == 0) = true
    · simp [hz]
    · simp only [hz, if_false]
      by_cases hsell : (rm.should_sell kv.1 price settings.profit_rate
          settings.loss_rate).1 = true
      · simp [hsell]
      · simp only [hsell, if_false]
        rcases hpnl : rm.get_position_pnl kv.1 price with _ | pr
        · simp [hpnl]
        · simp only [hpnl]
          rcases hls : losingPositionStep kv.2 pr.1 pr.2 now with e | o
          · simp [hls]
          · rcases o with _ | r
            · simp [hls]
            · exfalso
              unfold losingPositionStep at hls
              split at hls <;> simp at hls

/-! ## C10 — read failure of the daily-P&L store -/

/-- C10: when reading the daily-P&L store fails (missing or unparsable file),
`get_daily_pnl` returns 0, and therefore `check_daily_loss_limit` reports no
breach for every strictly negative configured limit — the read failure
silently disables the daily-loss circuit breaker. -/
theorem daily_pnl_read_failure_disables_breaker (rm : RiskManager) (today : String)
    (hread : rm.daily_pnl = .missing ∨ rm.daily_pnl = .unreadable) :
    rm.get_daily_pnl today = 0 ∧
      (rm.daily_loss_limit < 0 → rm.check_daily_loss_limit today = false) := by
  have hzero : rm.get_daily_pnl today = 0 := by
    unfold RiskManager.get_daily_pnl
    rcases hread with h | h <;> rw [h]
  refine ⟨hzero, fun hneg => ?_⟩
  unfold RiskManager.check_daily_loss_limit
  rw [hzero]
  simp only [add_zero, decide_eq_false_iff_not]
  intro hle
  linarith

/-- Witness for C10 at the fresh ledger (missing store, limit -50000 < 0). -/
theorem daily_pnl_read_failure_disables_breaker_witness :
    emptyLedger.get_daily_pnl "2025-06-01" = 0 ∧
      emptyLedger.check_daily_loss_limit "2025-06-01" = false := by
  have h := daily_pnl_read_failure_disables_breaker emptyLedger "2025-06-01" (Or.inl rfl)
  exact ⟨h.1, h.2 (by norm_num [emptyLedger])⟩

/-! ## C4 — exit rule ordering and inclusive boundaries -/

/-- C4: for every open position and price, `should_sell` checks the
profit-target condition first (`pnl_rate ≥ profit_rate·100`, inclusive) and
signals the take-profit reason; otherwise it checks the stop-loss condition
(`pnl_rate ≤ loss_rate·100`, inclusive) and signals the stop-loss reason;
otherwise no exit.  The reason tags are the literal leading tags of the
source's f-strings (`"익절"` take-profit, `"손절"` stop-loss). -/
theorem should_sell_spec (rm : RiskManager) (market : String)
    (price profit_rate loss_rate pnl pnl_rate : ℚ)
    (hpnl : rm.get_position_pnl market price = some (pnl, pnl_rate)) :
    (pnl_rate ≥ profit_rate * 100 →
       rm.should_sell market price profit_rate loss_rate = (true, "익절")) ∧
    (pnl_rate < profit_rate * 100 → pnl_rate ≤ loss_rate * 100 →
       rm.should_sell market price profit_rate loss_rate = (true, "손절")) ∧
    (pnl_rate < profit_rate * 100 → loss_rate * 100 < pnl_rate →
       rm.should_sell market price profit_rate loss_rate = (false, "")) := by
  simp only [RiskManager.should_sell, hpnl]
  refine ⟨fun h1 => ?_, fun h1 h2 => ?_, fun h1 h2 => ?_⟩
  · rw [if_pos h1]
  · rw [if_neg (not_le.mpr h1), if_pos h2]
  · rw [if_neg (not_le.mpr h1), if_neg (not_le.mpr h2)]

/-- Witness for C4: with profit target 0.03 on a position bought for 100000,
an exit price of 103000 (exactly +3.00%) exits with the take-profit tag, and
102990 (+2.99%) does not exit. -/
theorem should_sell_spec_witness :
    sampleLedger.should_sell "KRW-A" 103000 (3/100) (-2/100) = (true, "익절") ∧
    sampleLedger.should_sell "KRW-A" 102990 (3/100) (-2/100) = (false, "") := by
  have hfind : dictGet? sampleLedger.positions "KRW-A" = some samplePosition := rfl
  have hp1 : sampleLedger.get_position_pnl "KRW-A" 103000 = some (3000, 3) := by
    simp only [RiskManager.get_position_pnl, hfind]
    norm_num [samplePosition, Position.calculate_current_pnl, Position.calculate_pnl_rate]
  have hp2 : sampleLedger.get_position_pnl "KRW-A" 102990 = some (2990, 299/100) := by
    simp only [RiskManager.get_position_pnl, hfind]
    norm_num [samplePosition, Position.calculate_current_pnl, Position.calculate_pnl_rate]
  constructor
  · exact (should_sell_spec sampleLedger "KRW-A" 103000 (3/100) (-2/100) 3000 3
      hp1).1 (by norm_num)
  · exact (should_sell_spec sampleLedger "KRW-A" 102990 (3/100) (-2/100) 2990 (299/100)
      hp2).2.2 (by norm_num) (by norm_num)

/-! ## C5 — close semantics and the daily ledger -/

theorem update_daily_pnl_positions (rm : RiskManager) (today : String) (pl : ℚ) :
    (rm.update_daily_pnl today pl).positions = rm.positions := by
  unfold RiskManager.update_daily_pnl
  cases rm.daily_pnl <;> rfl

theorem record_trade_get_daily_pnl (rm : RiskManager) (market action : String)
    (price quantity amount profit_loss : ℚ) (now : Nat) (today today2 : String) :
    (rm.record_trade market action price quantity amount profit_loss now
        today).get_daily_pnl today2 = rm.get_daily_pnl today2 := rfl

theorem positions_update_get_daily_pnl (rm : RiskManager)
    (ps : List (String × Position)) (today : String) :
    ({ rm with positions := ps } : RiskManager).get_daily_pnl today =
      rm.get_daily_pnl today := rfl

/-- C5 (corrected): `close_position` returns `none` exactly when no open
position exists for the instrument, and leaves the ledger unchanged in that
case; otherwise it returns `realizedPnL = quantity × exitPrice −
investmentAmount` and stores the position marked `"closed"` — and it adds the
realized P&L to the Daily P&L Ledger entry for the current date **provided
the daily-P&L store is not present-but-unparsable** (an unparsable store makes
`_update_daily_pnl` swallow the read error and skip the write; see the
counterexample). -/
theorem close_position_spec (rm : RiskManager) (market : String)
    (exit_price : ℚ) (now : Nat) (today : String) :
    ((rm.close_position market exit_price now today).1 = none ↔
        rm.hasOpenPosition market = false) ∧
    ((rm.close_position market exit_price now today).1 = none →
        (rm.close_position market exit_price now today).2 = rm) ∧
    (∀ p, dictGet? rm.positions market = some p → p.status = "open" →
      (rm.close_position market exit_price now today).1 =
          some (p.quantity * exit_price - p.investment_amount) ∧
      dictGet? (rm.close_position market exit_price now today).2.positions market =
          some (p.close_position exit_price now).1 ∧
      (p.close_position exit_price now).1.status = "closed" ∧
      (rm.daily_pnl ≠ .unreadable →
        (rm.close_position market exit_price now today).2.get_daily_pnl today =
          rm.get_daily_pnl today + (p.quantity * exit_price - p.investment_amount))) := by
  rcases hd : dictGet? rm.positions market with _ | p
  · refine ⟨by simp [RiskManager.close_position, RiskManager.hasOpenPosition, hd],
      by simp [RiskManager.close_position, hd], ?_⟩
    intro p hp
    exact absurd hp (by simp)
  · by_cases hst : p.status = "open"
    · have h1 : (rm.close_position market exit_price now today).1 =
          some (p.quantity * exit_price - p.investment_amount) := by
        simp only [RiskManager.close_position, hd]
        rw [hst]
        simp only [bne_self_eq_false, Bool.false_eq_true, if_false]
        rfl
      refine ⟨?_, ?_, ?_⟩
      · rw [h1]
        simp [RiskManager.hasOpenPosition, hd, hst]
      · rw [h1]
        intro h
        exact absurd h (by simp)
      · intro p' hp' _
        injection hp' with hp'
        subst hp'
        refine ⟨h1, ?_, rfl, ?_⟩
        · simp only [RiskManager.close_position, hd]
          rw [hst]
          simp only [bne_self_eq_false, Bool.false_eq_true, if_false]
          rw [update_daily_pnl_positions]
          exact dictGet?_dictSet_self _ _ _
        · intro hread
          simp only [RiskManager.close_position, hd]
          rw [hst]
          simp only [bne_self_eq_false, Bool.false_eq_true, if_false]
          rw [get_daily_pnl_update]
          · rw [record_trade_get_daily_pnl, positions_update_get_daily_pnl]
            rfl
          · exact hread
    · have hbne : (p.status != "open") = true := by simp [hst]
      refine ⟨by simp [RiskManager.close_position, RiskManager.hasOpenPosition, hd,
          hbne, hst],
        by simp [RiskManager.close_position, hd, hbne], ?_⟩
      intro p' hp' hst'
      injection hp' with hp'
      subst hp'
      exact absurd hst' hst

/-- Counterexample for C5 as stated: with an open position worth +3000 and a
present-but-unparsable daily-P&L store, `close_position` returns the realized
P&L 3000 but the Daily P&L Ledger entry for the day still reads 0 — the
realized P&L was not added. -/
theorem close_position_claim_counterexample :
    (corruptLedger.close_position "KRW-A" 103000 5 "2025-06-01").1 = some 3000 ∧
    corruptLedger.hasOpenPosition "KRW-A" = true ∧
    (corruptLedger.close_position "KRW-A" 103000 5 "2025-06-01").2.get_daily_pnl
        "2025-06-01" = 0 ∧
    (0 : ℚ) ≠ corruptLedger.get_daily_pnl "2025-06-01" + 3000 := by
  have hfind : dictGet? corruptLedger.positions "KRW-A" = some samplePosition := rfl
  have hbne : (samplePosition.status != "open") = false := rfl
  refine ⟨?_, rfl, ?_, ?_⟩
  · simp only [RiskManager.close_position, hfind, hbne, if_false]
    norm_num [Position.close_position, Position.calculate_current_pnl, samplePosition]
  · rfl
  · norm_num [corruptLedger, sampleLedger, RiskManager.get_daily_pnl]

/-! ## C6 — canOpen and open rejection -/

/-- C6 (corrected): `can_open_position` is true iff the open-position count is
strictly below `max_positions`, and `add_position` is rejected with no state
change exactly when an open position for the instrument already exists or the
open-position count is **at least** the cap (the code tests `count < cap`;
in states whose count exceeds the cap — reachable by restoring a persisted
index larger than the configured cap — rejection also occurs even though the
count does not equal the cap). -/
theorem add_position_spec (rm : RiskManager) (market : String)
    (entry_price quantity investment_amount : ℚ) (now : Nat) (today : String) :
    (rm.can_open_position = true ↔
        rm.get_open_positions.length < rm.max_positions) ∧
    ((rm.add_position market entry_price quantity investment_amount now today).1
        = false ↔
      (rm.max_positions ≤ rm.get_open_positions.length ∨
       rm.hasOpenPosition market = true)) ∧
    ((rm.add_position market entry_price quantity investment_amount now today).1
        = false →
      (rm.add_position market entry_price quantity investment_amount now today).2
        = rm) := by
  refine ⟨by simp [RiskManager.can_open_position], ?_, ?_⟩
  · by_cases h1 : rm.can_open_position = true
    · have hlt : rm.get_open_positions.length < rm.max_positions := by
        simpa [RiskManager.can_open_position] using h1
      by_cases h2 : rm.hasOpenPosition market = true
      · simp [RiskManager.add_position, h1, h2]
      · simp [RiskManager.add_position, h1, h2, Nat.not_le.mpr hlt]
    · have hge : rm.max_positions ≤ rm.get_open_positions.length := by
        simpa [RiskManager.can_open_position] using h1
      simp [RiskManager.add_position, h1, hge]
  · by_cases h1 : rm.can_open_position = true
    · by_cases h2 : rm.hasOpenPosition market = true
      · simp [RiskManager.add_position, h1, h2]
      · simp [RiskManager.add_position, h1, h2]
    · simp [RiskManager.add_position, h1]

/-- Witness for C6's amended theorem at the overfull ledger (2 open positions,
cap 1, fresh instrument). -/
theorem add_position_spec_witness :
    (overfullLedger.can_open_position = true ↔
        overfullLedger.get_open_positions.length < overfullLedger.max_positions) ∧
    ((overfullLedger.add_position "KRW-C" 100 1 100 0 "2025-06-01").1 = false ↔
      (overfullLedger.max_positions ≤ overfullLedger.get_open_positions.length ∨
       overfullLedger.hasOpenPosition "KRW-C" = true)) ∧
    ((overfullLedger.add_position "KRW-C" 100 1 100 0 "2025-06-01").1 = false →
      (overfullLedger.add_position "KRW-C" 100 1 100 0 "2025-06-01").2
        = overfullLedger) :=
  add_position_spec overfullLedger "KRW-C" 100 1 100 0 "2025-06-01"

/-- Counterexample for C6 as stated: in the overfull ledger (count 2, cap 1)
`add_position` for a fresh instrument is rejected although no open position
for that instrument exists and the open-position count does not equal the
cap. -/
theorem add_position_claim_counterexample :
    (overfullLedger.add_position "KRW-C" 100 1 100 0 "2025-06-01").1 = false ∧
    overfullLedger.hasOpenPosition "KRW-C" = false ∧
    overfullLedger.get_open_positions.length ≠ overfullLedger.max_positions := by
  refine ⟨rfl, rfl, by decide⟩

/-! ## C3 — the open-position positivity invariant -/

theorem estimate_mem (trade_history : List TradeRecord) (market : String) (e : ℚ)
    (h : estimate_entry_price_from_history trade_history market = some e) :
    ∃ r ∈ trade_history, r.price = e := by
  unfold estimate_entry_price_from_history at h
  rcases Option.map_eq_some'.mp h with ⟨r, hlast, hre⟩
  have hmem : r ∈ ((trade_history.filter (fun s => s.market == market)).mergeSort
      (fun a b => a.timestamp ≤ b.timestamp)).filter (fun s => s.action == "BUY") := by
    rcases List.mem_getLast?_eq_getLast
      (show r ∈ (((trade_history.filter (fun s => s.market == market)).mergeSort
          (fun a b => a.timestamp ≤ b.timestamp)).filter
            (fun s => s.action == "BUY")).getLast? by simp [hlast])
      with ⟨hne, hr⟩
    exact hr ▸ List.getLast_mem hne
  have hmem2 : r ∈ (trade_history.filter (fun s => s.market == market)).mergeSort
      (fun a b => a.timestamp ≤ b.timestamp) := List.mem_of_mem_filter hmem
  have hmem3 : r ∈ trade_history.filter (fun s => s.market == market) :=
    (List.mergeSort_perm _ _).mem_iff.mp hmem2
  exact ⟨r, List.mem_of_mem_filter hmem3, hre⟩

theorem restoredPosition_positive (trade_history : List TradeRecord)
    (prices : String → Option ℚ) (now : Nat) (a : Account)
    (hpr : ∀ m pr, prices m = some pr → 0 ≤ pr)
    (hh : ∀ r ∈ trade_history, 0 ≤ r.price) :
    ∀ mp, restoredPosition trade_history prices now a = some mp →
      0 < mp.2.quantity ∧ 0 < mp.2.investment_amount := by
  intro mp hmp
  unfold restoredPosition at hmp
  dsimp only at hmp
  split at hmp
  · simp at hmp
  · split at hmp
    · simp at hmp
    · rename_i hKRW hbal
      have h2 : a.balance > 0 := not_not.mp hbal
      split at hmp
      · simp at hmp
      · rename_i current_price hp
        split at hmp
        · simp at hmp
        · rename_i h3
          have hcp : 0 < current_price := by
            have := hpr _ _ hp
            rcases lt_or_eq_of_le this with h | h
            · exact h
            · exact absurd (beq_iff_eq.mpr h.symm) (by simpa using h3)
          have hentry : 0 <
              (match estimate_entry_price_from_history trade_history
                  ("KRW-" ++ a.currency) with
                | none => current_price
                | some e => if e == 0 then current_price else e) := by
            rcases he : estimate_entry_price_from_history trade_history
                ("KRW-" ++ a.currency) with _ | e
            · exact hcp
            · by_cases hz : (e == 0) = true
              · simp [hz, hcp]
              · simp only [hz, if_false]
                rcases estimate_mem trade_history _ e he with ⟨r, hr, hre⟩
                have := hh r hr
                rcases lt_or_eq_of_le (hre ▸ this) with h | h
                · simpa using h
                · exact absurd (beq_iff_eq.mpr h.symm) (by simpa using hz)
          injection hmp with hmp
          rw [← hmp]
          exact ⟨h2, mul_pos hentry h2⟩

theorem buildRestored_positive (trade_history : List TradeRecord)
    (prices : String → Option ℚ) (now : Nat)
    (hpr : ∀ m pr, prices m = some pr → 0 ≤ pr)
    (hh : ∀ r ∈ trade_history, 0 ≤ r.price) :
    ∀ (accounts : List Account) (acc : List (String × Position)),
      openPositive acc →
      openPositive (accounts.foldl (fun ps a =>
        match restoredPosition trade_history prices now a with
        | none => ps
        | some mp => dictSet ps mp.1 mp.2) acc) := by
  intro accounts
  induction accounts with
  | nil => intro acc hacc; exact hacc
  | cons a rest ih =>
    intro acc hacc
    rw [List.foldl_cons]
    apply ih
    rcases hr : restoredPosition trade_history prices now a with _ | mp
    · exact hacc
    · exact openPositive_dictSet hacc
        (fun _ => restoredPosition_positive trade_history prices now a hpr hh mp hr)

/-- C3 (corrected): the positivity invariant on the live-open index is
preserved by reconciliation unconditionally in quantity (balances are
filtered by `> 0`) and — given nonnegative stored prices — in investment
amount, and by `add_position` and the file restore **provided the supplied
quantities and investment amounts are positive**; `add_position` itself
validates nothing, so with arbitrary arguments the invariant can be violated
(see the counterexample). -/
theorem openInvariant_preservation :
    (∀ (rm : RiskManager) (market : String)
        (entry_price quantity investment_amount : ℚ) (now : Nat) (today : String),
      openInvariant rm → 0 < quantity → 0 < investment_amount →
      openInvariant
        (rm.add_position market entry_price quantity investment_amount now today).2) ∧
    (∀ (rm : RiskManager) (file : PositionsFile),
      openInvariant rm → fileOpenEntriesPositive file →
      openInvariant (rm.restore_positions_from_file file)) ∧
    (∀ (rm : RiskManager) (accounts : List Account)
        (prices : String → Option ℚ) (now : Nat),
      (∀ m pr, prices m = some pr → 0 ≤ pr) →
      (∀ r ∈ rm.trade_history, 0 ≤ r.price) →
      openInvariant (rm.restore_positions_from_upbit accounts prices now)) := by
  refine ⟨?_, ?_, ?_⟩
  · intro rm market entry_price quantity investment_amount now today hinv hq hi
    unfold RiskManager.add_position
    by_cases h1 : rm.can_open_position = true
    · by_cases h2 : rm.hasOpenPosition market = true
      · simpa [h1, h2] using hinv
      · simp only [h1, h2, not_true, if_false, Bool.false_eq_true, not_false_iff,
          if_true]
        exact openPositive_dictSet hinv (fun _ => ⟨hq, hi⟩)
    · simpa [h1] using hinv
  · intro rm file hinv hfile
    unfold RiskManager.restore_positions_from_file
    rcases file with _ | _ | data
    · exact hinv
    · exact hinv
    · have : ∀ (dl : List (String × Position)) (acc : List (String × Position)),
          openPositive acc → openPositive dl →
          openPositive (dl.foldl (fun ps kv =>
            if kv.2.status == "open" then dictSet ps kv.1 (fileRestoredPosition kv.2)
            else ps) acc) := by
        intro dl
        induction dl with
        | nil => intro acc hacc _; exact hacc
        | cons kv rest ih =>
          intro acc hacc hdl
          rw [List.foldl_cons]
          apply ih
          · by_cases hst : (kv.2.status == "open") = true
            · rw [if_pos hst]
              refine openPositive_dictSet hacc (fun _ => ?_)
              have := hdl kv (List.mem_cons_self _ _) (by simpa using hst)
              exact ⟨this.1, this.2⟩
            · rw [if_neg hst]
              exact hacc
          · intro kv' hkv' h
            exact hdl kv' (List.mem_cons_of_mem _ hkv') h
      exact this data rm.positions hinv hfile
  · intro rm accounts prices now hpr hh
    unfold RiskManager.restore_positions_from_upbit openInvariant buildRestored
    exact buildRestored_positive rm.trade_history prices now hpr hh accounts []
      (by intro kv hkv; simp at hkv)

/-- Witness for C3's amended theorem: positive-argument `add_position` on the
fresh ledger, a positive persisted entry, and a reconciliation from one
positive balance with positive prices, each preserving the invariant. -/
theorem openInvariant_preservation_witness :
    openInvariant (emptyLedger.add_position "KRW-X" 100 2 200 0 "2025-06-01").2 ∧
    openInvariant (emptyLedger.restore_positions_from_file
      (.ok [("KRW-A", samplePosition)])) ∧
    openInvariant (emptyLedger.restore_positions_from_upbit
      [{ currency := "BTC", balance := 1 }] (fun _ => some 100) 0) := by
  refine ⟨?_, ?_, ?_⟩
  · exact openInvariant_preservation.1 emptyLedger "KRW-X" 100 2 200 0 "2025-06-01"
      (by intro kv hkv; simp [emptyLedger] at hkv) (by norm_num) (by norm_num)
  · exact openInvariant_preservation.2.1 emptyLedger (.ok [("KRW-A", samplePosition)])
      (by intro kv hkv; simp [emptyLedger] at hkv)
      (by
        intro kv hkv _
        simp only [List.mem_singleton] at hkv
        rw [hkv]
        exact ⟨by norm_num [samplePosition], by norm_num [samplePosition]⟩)
  · exact openInvariant_preservation.2.2 emptyLedger
      [{ currency := "BTC", balance := 1 }] (fun _ => some 100) 0
      (by intro m pr hpr; injection hpr with hpr; rw [← hpr]; norm_num)
      (by intro r hr; simp [emptyLedger] at hr)

/-- Counterexample for C3 as stated: `add_position` with quantity 0 and
investment 0 succeeds on the fresh ledger and leaves an open position with
quantity 0 in the live-open index — the invariant is not preserved under
arbitrary arguments. -/
theorem openInvariant_claim_counterexample :
    openInvariant emptyLedger ∧
    (emptyLedger.add_position "KRW-X" 100 0 0 0 "2025-06-01").1 = true ∧
    ¬ openInvariant (emptyLedger.add_position "KRW-X" 100 0 0 0 "2025-06-01").2 := by
  refine ⟨by intro kv hkv; simp [emptyLedger] at hkv, rfl, ?_⟩
  intro hinv
  have hkv : ("KRW-X",
      ({ market := "KRW-X", entry_price := 100, quantity := 0, entry_time := 0,
         investment_amount := 0 } : Position)) ∈
      (emptyLedger.add_position "KRW-X" 100 0 0 0 "2025-06-01").2.positions := by
    show _ ∈ dictSet [] "KRW-X" _
    simp [dictSet]
  have := hinv _ hkv rfl
  exact absurd this.1 (by norm_num)

/-- Witness for C5's amended theorem: closing the sample position at 103000
returns realized P&L 3000 and the day's entry reads 3000 (store missing, so
readable path). -/
theorem close_position_spec_witness :
    (sampleLedger.close_position "KRW-A" 103000 5 "2025-06-01").1 = some 3000 ∧
    (sampleLedger.close_position "KRW-A" 103000 5 "2025-06-01").2.get_daily_pnl
        "2025-06-01" = 3000 := by
  have h := (close_position_spec sampleLedger "KRW-A" 103000 5 "2025-06-01").2.2
    samplePosition rfl rfl
  constructor
  · rw [h.1]
    simp only [Option.some.injEq]
    norm_num [samplePosition]
  · rw [h.2.2.2 (by simp [sampleLedger, emptyLedger])]
    norm_num [samplePosition, sampleLedger, emptyLedger, RiskManager.get_daily_pnl]

/-! ## C8 — the rule-based fallback recommendation -/

theorem fallbackFold_spec (l : List Candidate) :
    ∀ (b : Option Candidate × ℚ),
    (l.foldl (fun acc data =>
        if candidateScore data > acc.2 then (some data, candidateScore data) else acc) b = b
      ∧ ∀ d ∈ l, candidateScore d ≤ b.2) ∨
    (∃ c ∈ l,
      l.foldl (fun acc data =>
        if candidateScore data > acc.2 then (some data, candidateScore data) else acc) b
        = (some c, candidateScore c) ∧
      b.2 ≤ candidateScore c ∧ ∀ d ∈ l, candidateScore d ≤ candidateScore c) := by
  induction l with
  | nil =>
    intro b
    left
    exact ⟨rfl, by simp⟩
  | cons a l ih =>
    intro b
    rw [List.foldl_cons]
    by_cases ha : candidateScore a > b.2
    · rw [if_pos ha]
      rcases ih (some a, candidateScore a) with ⟨heq, hall⟩ | ⟨c, hc, heq, hge, hall⟩
      · right
        refine ⟨a, List.mem_cons_self _ _, heq, le_of_lt ha, ?_⟩
        intro d hd
        rcases List.mem_cons.mp hd with rfl | hd
        · exact le_refl _
        · exact hall d hd
      · right
        refine ⟨c, List.mem_cons_of_mem _ hc, heq, le_trans (le_of_lt ha) hge, ?_⟩
        intro d hd
        rcases List.mem_cons.mp hd with rfl | hd
        · exact hge
        · exact hall d hd
    · rw [if_neg ha]
      have ha' : candidateScore a ≤ b.2 := not_lt.mp ha
      rcases ih b with ⟨heq, hall⟩ | ⟨c, hc, heq, hge, hall⟩
      · left
        refine ⟨heq, ?_⟩
        intro d hd
        rcases List.mem_cons.mp hd with rfl | hd
        · exact ha'
        · exact hall d hd
      · right
        refine ⟨c, List.mem_cons_of_mem _ hc, heq, hge, ?_⟩
        intro d hd
        rcases List.mem_cons.mp hd with rfl | hd
        · exact le_trans ha' hge
        · exact hall d hd

/-- C8 (corrected): for every candidate list in which **some candidate scores
strictly above the fold's initial best score −1**, the rule-based fallback
names one of the input candidates (a maximizer of the weighted score, risk
tier MEDIUM); determinism holds because the computation is a pure function of
the input.  Without that condition the fold never selects anything and the
none-result is returned even for a non-empty list (see the counterexample);
the condition holds whenever trade amount and volume ratio are nonnegative
and the absolute price change is below 100%. -/
theorem get_fallback_recommendation_spec (market_data : List Candidate)
    (h : ∃ c ∈ market_data, -1 < candidateScore c) :
    ∃ c ∈ market_data,
      (AIAnalyzer.get_fallback_recommendation market_data).recommended_coin =
          some (stripKRW c.market) ∧
      (AIAnalyzer.get_fallback_recommendation market_data).risk_level = "MEDIUM" ∧
      ∀ d ∈ market_data, candidateScore d ≤ candidateScore c := by
  rcases h with ⟨c₀, hc₀, hs₀⟩
  have hne : market_data.isEmpty = false := by
    cases market_data
    · simp at hc₀
    · rfl
  rcases fallbackFold_spec market_data (none, -1) with ⟨_, hall⟩ | ⟨c, hc, heq, _, hall⟩
  · exact absurd (hall c₀ hc₀) (not_le.mpr (by simpa using hs₀))
  · have hbest : fallbackBest market_data = (some c, candidateScore c) := by
      unfold fallbackBest
      exact heq
    refine ⟨c, hc, ?_, ?_, hall⟩
    · simp [AIAnalyzer.get_fallback_recommendation, hne, hbest]
    · simp [AIAnalyzer.get_fallback_recommendation, hne, hbest]

/-- Witness for C8's amended theorem on a one-candidate list whose score beats
−1. -/
theorem get_fallback_recommendation_spec_witness :
    ∃ c ∈ [mkCandidate "KRW-A" 600],
      (AIAnalyzer.get_fallback_recommendation [mkCandidate "KRW-A" 600]).recommended_coin =
          some (stripKRW c.market) ∧
      (AIAnalyzer.get_fallback_recommendation [mkCandidate "KRW-A" 600]).risk_level
          = "MEDIUM" ∧
      ∀ d ∈ [mkCandidate "KRW-A" 600], candidateScore d ≤ candidateScore c :=
  get_fallback_recommendation_spec [mkCandidate "KRW-A" 600]
    ⟨mkCandidate "KRW-A" 600, by simp,
      by norm_num [candidateScore, mkCandidate, min_def, abs_one]⟩

/-- Counterexample for C8 as stated: on the non-empty list holding only
`extremeCandidate` (price change 120%, no traded notional, no volume), every
score is −5/4 ≤ −1, the fold keeps its initial `None`, and the fallback
returns the none-result instead of naming an input candidate. -/
theorem fallback_claim_counterexample :
    ([extremeCandidate] : List Candidate) ≠ [] ∧
    (AIAnalyzer.get_fallback_recommendation [extremeCandidate]).recommended_coin
      = none := by
  refine ⟨by simp, ?_⟩
  have habs : |(120 : ℚ)| = 120 := abs_of_nonneg (by norm_num)
  have hlt : ¬ (candidateScore extremeCandidate > (-1 : ℚ)) := by
    norm_num [candidateScore, extremeCandidate, min_def, habs]
  simp [AIAnalyzer.get_fallback_recommendation, fallbackBest, hlt]

/-! ## C7 — per-tick selection with the AI verdict -/

theorem analyze_ok_eq_kept (market_data : List Candidate) (r fb : AIResult)
    (thr : ℚ) :
    AIAnalyzer.analyze_market_condition true market_data (.ok r) fb thr =
      keptResponse r fb thr := by
  simp only [AIAnalyzer.analyze_market_condition, keptResponse, not_true,
    if_false, Bool.not_true, Bool.false_eq_true]

theorem scanPick_reduction (first : Candidate) (rest : List Candidate)
    (r fb : AIResult) (thr : ℚ) (hrest : rest ≠ []) :
    scanPick (first :: rest) true (.ok r) fb thr =
      (match (keptResponse r fb thr).recommended_coin with
       | none => some first
       | some coin =>
         if (keptResponse r fb thr).confidence ≥ thr ∧
             (keptResponse r fb thr).risk_level ≠ "HIGH" then
           match (first :: rest).find? (fun c => c.market == "KRW-" ++ coin) with
           | some c => some c
           | none => some first
         else some first) := by
  have hlen : (first :: rest).length > 1 := by
    cases rest with
    | nil => exact absurd rfl hrest
    | cons a l => simp [List.length_cons]
  unfold scanPick
  dsimp only
  rw [if_pos ⟨rfl, hlen⟩, analyze_ok_eq_kept]

/-- C7 (corrected): with the AI enabled, more than one candidate, and a parsed
primary response `r`: the engine keeps `r` when its confidence meets the
threshold, and otherwise queries the secondary model and keeps the response
with the strictly higher confidence (`keptResponse`); the kept pick is
adopted only when it names a coin, its confidence meets the threshold and its
risk tier is not the highest — and the named market is resolved against the
**full scanned candidate list** (the first match), not only the submitted
top-K subset; in every other case the traded-notional-rank-1 (head) candidate
is selected. -/
theorem scanPick_spec (first : Candidate) (rest : List Candidate)
    (r fb : AIResult) (thr : ℚ) (hrest : rest ≠ []) :
    (AIAnalyzer.analyze_market_condition true (aiSubmitted (first :: rest))
        (.ok r) fb thr = keptResponse r fb thr) ∧
    (r.confidence ≥ thr → keptResponse r fb thr = r) ∧
    (r.confidence < thr →
      keptResponse r fb thr =
        (if fb.confidence > r.confidence then fb else r)) ∧
    (∀ coin, (keptResponse r fb thr).recommended_coin = some coin →
      (keptResponse r fb thr).confidence ≥ thr →
      (keptResponse r fb thr).risk_level ≠ "HIGH" →
      scanPick (first :: rest) true (.ok r) fb thr =
        some (((first :: rest).find?
          (fun c => c.market == "KRW-" ++ coin)).getD first)) ∧
    (((keptResponse r fb thr).recommended_coin = none ∨
      (keptResponse r fb thr).confidence < thr ∨
      (keptResponse r fb thr).risk_level = "HIGH") →
      scanPick (first :: rest) true (.ok r) fb thr = some first) := by
  refine ⟨analyze_ok_eq_kept _ r fb thr, ?_, ?_, ?_, ?_⟩
  · intro h
    unfold keptResponse
    rw [if_neg (not_lt.mpr h)]
  · intro h
    unfold keptResponse
    rw [if_pos h]
  · intro coin hcoin hconf hrisk
    rw [scanPick_reduction first rest r fb thr hrest, hcoin]
    dsimp only
    rw [if_pos ⟨hconf, hrisk⟩]
    rcases hf : (first :: rest).find? (fun c => c.market == "KRW-" ++ coin)
      with _ | c
    · simp [hf]
    · simp [hf]
  · intro h
    rw [scanPick_reduction first rest r fb thr hrest]
    rcases hcoin : (keptResponse r fb thr).recommended_coin with _ | coin
    · rfl
    · dsimp only
      rcases h with h | h | h
      · rw [hcoin] at h
        exact absurd h (by simp)
      · rw [if_neg (by intro hc; exact absurd hc.1 (not_le.mpr h))]
      · rw [if_neg (by intro hc; exact absurd h hc.2)]

/-- Witness for C7's amended theorem, realizing the spec's scenario: primary
confidence 5 below threshold 7, fallback-model confidence 8 naming the
submitted candidate KRW-C with risk MEDIUM — the fallback response is kept
and KRW-C is selected. -/
theorem scanPick_spec_witness :
    keptResponse primaryConf5 fallbackConf8 7 = fallbackConf8 ∧
    scanPick sixCandidates true (.ok primaryConf5) fallbackConf8 7 =
      some (mkCandidate "KRW-C" 400) := by
  have hspec := scanPick_spec (mkCandidate "KRW-A" 600)
    [mkCandidate "KRW-B" 500, mkCandidate "KRW-C" 400, mkCandidate "KRW-D" 300,
     mkCandidate "KRW-E" 200, mkCandidate "KRW-F" 100]
    primaryConf5 fallbackConf8 7 (List.cons_ne_nil _ _)
  have hkept : keptResponse primaryConf5 fallbackConf8 7 = fallbackConf8 := by
    rw [hspec.2.2.1 (by norm_num [primaryConf5])]
    rw [if_pos (by norm_num [primaryConf5, fallbackConf8])]
  have hc := hspec.2.2.2.1 "C" (by rw [hkept]; rfl) (by rw [hkept]; norm_num [fallbackConf8])
    (by rw [hkept]; simp [fallbackConf8])
  refine ⟨hkept, ?_⟩
  show scanPick sixCandidates true (.ok primaryConf5) fallbackConf8 7 = _
  rw [show sixCandidates = mkCandidate "KRW-A" 600 ::
    [mkCandidate "KRW-B" 500, mkCandidate "KRW-C" 400, mkCandidate "KRW-D" 300,
     mkCandidate "KRW-E" 200, mkCandidate "KRW-F" 100] from rfl, hc]
  rfl

/-- Counterexample for C7 as stated: six scanned candidates, of which only the
traded-notional top four are submitted to the AI; an AI response naming the
rank-6 candidate KRW-F (confidence 9 ≥ 7, risk MEDIUM) is adopted and KRW-F
is selected, although KRW-F is not among the submitted candidates — the
membership check runs over the full scanned list. -/
theorem scanPick_claim_counterexample :
    scanPick sixCandidates true (.ok aiPickF) neutralFallback 7
      = some (mkCandidate "KRW-F" 100) ∧
    (aiSubmitted sixCandidates).all
      (fun c => c.market != (mkCandidate "KRW-F" 100).market) = true ∧
    aiPickF.recommended_coin = some "F" ∧
    aiPickF.confidence ≥ 7 ∧ aiPickF.risk_level ≠ "HIGH" := by
  have hspec := scanPick_spec (mkCandidate "KRW-A" 600)
    [mkCandidate "KRW-B" 500, mkCandidate "KRW-C" 400, mkCandidate "KRW-D" 300,
     mkCandidate "KRW-E" 200, mkCandidate "KRW-F" 100]
    aiPickF neutralFallback 7 (List.cons_ne_nil _ _)
  have hkept : keptResponse aiPickF neutralFallback 7 = aiPickF :=
    hspec.2.1 (by norm_num [aiPickF])
  have hc := hspec.2.2.2.1 "F" (by rw [hkept]; rfl)
    (by rw [hkept]; norm_num [aiPickF]) (by rw [hkept]; simp [aiPickF])
  refine ⟨?_, by decide, rfl, by norm_num [aiPickF], by simp [aiPickF]⟩
  show scanPick sixCandidates true (.ok aiPickF) neutralFallback 7 = _
  rw [show sixCandidates = mkCandidate "KRW-A" 600 ::
    [mkCandidate "KRW-B" 500, mkCandidate "KRW-C" 400, mkCandidate "KRW-D" 300,
     mkCandidate "KRW-E" 200, mkCandidate "KRW-F" 100] from rfl, hc]
  rfl

/-! ## C9 — idempotence of reconciliation -/

theorem mapValues_dictSet {α β : Type} (f : α → β) (d : List (String × α))
    (k : String) (v : α) :
    mapValues f (dictSet d k v) = dictSet (mapValues f d) k (f v) := by
  unfold mapValues dictSet
  have hany : ((d.map (fun kv => (kv.1, f kv.2))).any (fun kv => kv.1 == k))
      = (d.any (fun kv => kv.1 == k)) := by
    induction d with
    | nil => rfl
    | cons kv d ih => simp only [List.map_cons, List.any_cons, ih]
  rw [hany]
  by_cases h : d.any (fun kv => kv.1 == k) = true
  · rw [if_pos h, if_pos h, List.map_map, List.map_map]
    apply List.map_congr_left
    intro kv _
    by_cases hk : kv.1 = k
    · simp [hk]
    · simp [hk]
  · rw [if_neg h, if_neg h]
    simp

theorem restoredPosition_strip (hist : List TradeRecord)
    (prices : String → Option ℚ) (t1 t2 : Nat) (a : Account) :
    ((restoredPosition hist prices t1 a).map (fun mp => (mp.1, stripTime mp.2))) =
    ((restoredPosition hist prices t2 a).map (fun mp => (mp.1, stripTime mp.2))) := by
  unfold restoredPosition
  dsimp only
  split
  · rfl
  · split
    · rfl
    · rcases hp : prices ("KRW-" ++ a.currency) with _ | cp
      · rfl
      · by_cases hz : (cp == 0) = true
        · simp [hz]
        · simp only [hz, if_false, Option.map_some]
          simp [stripTime]

theorem buildRestored_strip (hist : List TradeRecord)
    (prices : String → Option ℚ) (t1 t2 : Nat) (accounts : List Account) :
    ∀ (acc1 acc2 : List (String × Position)),
      mapValues stripTime acc1 = mapValues stripTime acc2 →
      mapValues stripTime (accounts.foldl (fun ps a =>
        match restoredPosition hist prices t1 a with
        | none => ps
        | some mp => dictSet ps mp.1 mp.2) acc1) =
      mapValues stripTime (accounts.foldl (fun ps a =>
        match restoredPosition hist prices t2 a with
        | none => ps
        | some mp => dictSet ps mp.1 mp.2) acc2) := by
  induction accounts with
  | nil => intro acc1 acc2 h; simpa using h
  | cons a rest ih =>
    intro acc1 acc2 h
    rw [List.foldl_cons, List.foldl_cons]
    apply ih
    have hstrip := restoredPosition_strip hist prices t1 t2 a
    rcases h1 : restoredPosition hist prices t1 a with _ | mp1
    · rcases h2 : restoredPosition hist prices t2 a with _ | mp2
      · exact h
      · rw [h1, h2] at hstrip
        exact absurd hstrip (by simp)
    · rcases h2 : restoredPosition hist prices t2 a with _ | mp2
      · rw [h1, h2] at hstrip
        exact absurd hstrip (by simp)
      · rw [h1, h2] at hstrip
        simp at hstrip
        rw [mapValues_dictSet, mapValues_dictSet, h, hstrip.1, hstrip.2]

theorem openIndexList_strip (ps : List (String × Position)) :
    ((mapValues stripTime ps).filter (fun kv => kv.2.status == "open")).map
        indexEntry =
      (ps.filter (fun kv => kv.2.status == "open")).map indexEntry := by
  induction ps with
  | nil => rfl
  | cons kv rest ih =>
    simp only [mapValues, List.map_cons, List.filter_cons]
    rw [show ((kv.1, stripTime kv.2).2.status == "open")
        = (kv.2.status == "open") from rfl]
    by_cases h : (kv.2.status == "open") = true
    · rw [if_pos h, if_pos h]
      simp only [List.map_cons]
      rw [show indexEntry (kv.1, stripTime kv.2) = indexEntry kv from rfl]
      exact congrArg _ (by simpa [mapValues] using ih)
    · rw [if_neg h, if_neg h]
      simpa [mapValues] using ih

/-- C9: reconciliation is idempotent — with unchanged exchange state (the same
balances, prices and trade history, which the second run re-reads untouched
since reconciliation writes no trades), running
`restore_positions_from_upbit` a second time yields the same open-position
index, for any wall-clock instants `t1, t2` of the two runs (the index is the
persisted economic content {instrument, entryPrice, quantity,
investmentAmount, status}; the entry timestamp is by construction the clock
reading of the run). -/
theorem reconciliation_idempotent (rm : RiskManager) (accounts : List Account)
    (prices : String → Option ℚ) (t1 t2 : Nat) :
    ((rm.restore_positions_from_upbit accounts prices t1).restore_positions_from_upbit
        accounts prices t2).openIndex =
      (rm.restore_positions_from_upbit accounts prices t1).openIndex := by
  unfold RiskManager.restore_positions_from_upbit RiskManager.openIndex
    RiskManager.get_open_positions
  dsimp only
  have hstrip : mapValues stripTime (buildRestored rm.trade_history accounts prices t2)
      = mapValues stripTime (buildRestored rm.trade_history accounts prices t1) := by
    unfold buildRestored
    exact buildRestored_strip rm.trade_history prices t2 t1 accounts [] [] rfl
  calc ((buildRestored rm.trade_history accounts prices t2).filter
          (fun kv => kv.2.status == "open")).map indexEntry
      = ((mapValues stripTime (buildRestored rm.trade_history accounts prices t2)).filter
          (fun kv => kv.2.status == "open")).map indexEntry :=
        (openIndexList_strip _).symm
    _ = ((mapValues stripTime (buildRestored rm.trade_history accounts prices t1)).filter
          (fun kv => kv.2.status == "open")).map indexEntry := by rw [hstrip]
    _ = ((buildRestored rm.trade_history accounts prices t1).filter
          (fun kv => kv.2.status == "open")).map indexEntry :=
        openIndexList_strip _

end CoinButler
